import Mathlib

/-!
Verification of the cross-chain atomic swap (HTLC) contract.

This file gives a shallow embedding, in Lean, of the contract's data model
and operations (`src/lib.rs`, `src/deposit.rs`, `src/timelocks.rs`,
`src/signatures.rs`, `src/escrow.rs`) and proves or refutes the frozen
claims about them.

Modelling conventions, chosen to match the source:
- NEAR's `IterableMap` is modelled by an association list with
  insert-or-replace semantics (`alInsert`); `IterableSet` by a `List`.
- A `require!`/`expect` failure aborts the whole call with no state change;
  every fallible operation returns `Except String _`, and the transition
  relation keeps the old state on an error.
- Machine integers are modelled by `Nat` with explicit wrap-around where
  the source can overflow, the behaviour of the released contract binary:
  the `u64` timelock arithmetic wraps modulo 2^64 and the `u128` ledger
  additions wrap modulo 2^128; the saturating subtractions of the source
  are `Nat` subtraction.
- Host facilities (`env::predecessor_account_id`, `env::attached_deposit`,
  `env::block_timestamp`, `env::sha256`, `env::ed25519_verify`) are
  packaged in an `HostEnv` record passed to each entry point.
- Boundary decodings (base64 of the signature and the secret, JSON parsing
  of the `ft_on_transfer` message) are transport concerns; the operations
  here receive the already-decoded bytes or message.
-/

/-! ## Association lists (model of `near_sdk::store::IterableMap`) -/

/-- Lookup in an association list. -/
def alGet {K V : Type} [DecidableEq K] (m : List (K × V)) (k : K) : Option V :=
  match m with
  | [] => none
  | (k1, v) :: rest => if k1 = k then some v else alGet rest k

/-- Insert-or-replace in an association list (semantics of `IterableMap::insert`). -/
def alInsert {K V : Type} [DecidableEq K] (m : List (K × V)) (k : K) (v : V) :
    List (K × V) :=
  match m with
  | [] => [(k, v)]
  | (k1, v1) :: rest =>
      if k1 = k then (k1, v) :: rest else (k1, v1) :: alInsert rest k v

/-- Key membership (semantics of `IterableMap::contains_key`). -/
def alContains {K V : Type} [DecidableEq K] (m : List (K × V)) (k : K) : Bool :=
  (alGet m k).isSome

theorem alGet_alInsert {K V : Type} [DecidableEq K]
    (m : List (K × V)) (k k1 : K) (v : V) :
    alGet (alInsert m k v) k1 = if k = k1 then some v else alGet m k1 := by
  induction m with
  | nil =>
      simp only [alInsert, alGet]
  | cons hd tl ih =>
      obtain ⟨k2, v2⟩ := hd
      by_cases h2 : k2 = k
      · subst h2
        by_cases h1 : k2 = k1
        · subst h1
          simp [alInsert, alGet]
        · simp [alInsert, alGet, h1]
      · by_cases h1 : k2 = k1
        · subst h1
          have : ¬ k = k2 := fun h => h2 h.symm
          simp [alInsert, alGet, h2, this]
        · simp [alInsert, alGet, h2, h1, ih]

theorem alGet_alInsert_same {K V : Type} [DecidableEq K]
    (m : List (K × V)) (k : K) (v : V) :
    alGet (alInsert m k v) k = some v := by
  simp [alGet_alInsert]

theorem alGet_alInsert_other {K V : Type} [DecidableEq K]
    (m : List (K × V)) (k k1 : K) (v : V) (h : k ≠ k1) :
    alGet (alInsert m k v) k1 = alGet m k1 := by
  simp [alGet_alInsert, h]

/-! ## Fallible host calls

`require!(cond, msg)` and `expect(msg)` abort the current call; we model the
abort as `Except.error msg`. -/

/-- Model of `require!(cond, msg)`: ok when the condition holds, abort otherwise. -/
def hostRequire (cond : Bool) (msg : String) : Except String Unit :=
  if cond then .ok () else .error msg

theorem hostRequire_ok_iff (cond : Bool) (msg : String) :
    hostRequire cond msg = .ok () ↔ cond = true := by
  cases cond <;> simp [hostRequire]

/-! ## Byte-level encoding (borsh, `src/signatures.rs`)

`SignedOrder::to_message_bytes` serializes the struct with borsh.  Borsh
encodes a `u128` as 16 little-endian bytes, a `u64` as 8 little-endian
bytes, an `AccountId` as a `u32` little-endian byte length followed by the
utf8 bytes, a `[u8; 32]` as the 32 raw bytes and a `bool` as one byte. -/

/-- `w` little-endian base-256 digits of `n` (borsh fixed-width integer). -/
def leBytes : Nat → Nat → List Nat
  | 0, _ => []
  | w + 1, n => n % 256 :: leBytes w (n / 256)

theorem leBytes_length (w n : Nat) : (leBytes w n).length = w := by
  induction w generalizing n with
  | zero => simp [leBytes]
  | succ w ih => simp [leBytes, ih]

/-- The utf8 bytes of an account id.  NEAR account ids are ASCII
(`[a-z0-9._-]`), where utf8 bytes coincide with the character code points. -/
def utf8 (s : String) : List Nat :=
  s.data.map Char.toNat

/-- Borsh encoding of a string: `u32` little-endian length, then the bytes. -/
def borshString (s : String) : List Nat :=
  leBytes 4 (utf8 s).length ++ utf8 s

/-! ## Timelocks (`src/timelocks.rs`) -/

/-- `NANOS_IN_SEC` from `src/timelocks.rs`. -/
def NANOS_IN_SEC : Nat := 1000000000

/-- 2^64, the modulus of `u64` arithmetic. -/
def U64MOD : Nat := 18446744073709551616

/-- 2^128, the modulus of `u128` arithmetic. -/
def U128MOD : Nat := 340282366920938463463374607431768211456

/-- `TimelockDelays` (`src/timelocks.rs`): seven `u64` delays in seconds. -/
structure TimelockDelays where
  src_withdrawal_delay : Nat
  src_public_withdrawal_delay : Nat
  src_cancellation_delay : Nat
  src_public_cancellation_delay : Nat
  dst_withdrawal_delay : Nat
  dst_public_withdrawal_delay : Nat
  dst_cancellation_delay : Nat
deriving DecidableEq

/-- Borsh encoding of `TimelockDelays`: seven `u64` little-endian fields in
declaration order. -/
def encodeDelays (d : TimelockDelays) : List Nat :=
  leBytes 8 d.src_withdrawal_delay ++
  leBytes 8 d.src_public_withdrawal_delay ++
  leBytes 8 d.src_cancellation_delay ++
  leBytes 8 d.src_public_cancellation_delay ++
  leBytes 8 d.dst_withdrawal_delay ++
  leBytes 8 d.dst_public_withdrawal_delay ++
  leBytes 8 d.dst_cancellation_delay

/-- `TimelockDelays::validate` (`src/timelocks.rs`): six ordered `require!`
checks on the delay configuration. -/
def TimelockDelays.validate (d : TimelockDelays) : Except String Unit := do
  hostRequire (decide (d.src_withdrawal_delay ≤ d.src_public_withdrawal_delay))
    "SRC: Public withdrawal cannot start before private"
  hostRequire (decide (d.src_public_withdrawal_delay < d.src_cancellation_delay))
    "SRC: Cancellation cannot start before public withdrawal ends"
  hostRequire (decide (d.src_cancellation_delay ≤ d.src_public_cancellation_delay))
    "SRC: Public cancellation cannot start before private"
  hostRequire (decide (d.dst_withdrawal_delay ≤ d.dst_public_withdrawal_delay))
    "DST: Public withdrawal cannot start before private"
  hostRequire (decide (d.dst_public_withdrawal_delay < d.dst_cancellation_delay))
    "DST: Cancellation cannot start before public withdrawal ends"
  hostRequire (decide (d.dst_cancellation_delay ≤ d.src_cancellation_delay))
    "X-CHAIN: Destination cancellation must not be after source cancellation"

/-- `Timelocks` (`src/timelocks.rs`): a creation timestamp (nanoseconds)
paired with the delay configuration. -/
structure Timelocks where
  created_at : Nat
  delays : TimelockDelays
deriving DecidableEq

/-- A phase boundary `created_at + delay * NANOS_IN_SEC` computed in `u64`
arithmetic: the multiplication and the addition each wrap modulo 2^64. -/
def phaseBoundary (created_at delay : Nat) : Nat :=
  (created_at + delay * NANOS_IN_SEC % U64MOD) % U64MOD

/-- `Timelocks::assert_dst_withdrawal_window` (`src/timelocks.rs`). -/
def Timelocks.assert_dst_withdrawal_window (t : Timelocks)
    (is_public_caller : Bool) (now : Nat) : Except String Unit := do
  (if is_public_caller then
    hostRequire
      (decide (phaseBoundary t.created_at t.delays.dst_public_withdrawal_delay ≤ now))
      "Public withdrawal period (dst) has not started"
  else
    hostRequire
      (decide (phaseBoundary t.created_at t.delays.dst_withdrawal_delay ≤ now))
      "Private withdrawal period (dst) has not started")
  hostRequire
    (decide (now < phaseBoundary t.created_at t.delays.dst_cancellation_delay))
    "Cancellation period (dst) has started"

/-- `Timelocks::assert_src_withdrawal_window` (`src/timelocks.rs`). -/
def Timelocks.assert_src_withdrawal_window (t : Timelocks)
    (is_public_caller : Bool) (now : Nat) : Except String Unit := do
  (if is_public_caller then
    hostRequire
      (decide (phaseBoundary t.created_at t.delays.src_public_withdrawal_delay ≤ now))
      "Public withdrawal period (src) has not started"
  else
    hostRequire
      (decide (phaseBoundary t.created_at t.delays.src_withdrawal_delay ≤ now))
      "Private withdrawal period (src) has not started")
  hostRequire
    (decide (now < phaseBoundary t.created_at t.delays.src_cancellation_delay))
    "Cancellation period (src) has started"

/-- `Timelocks::assert_dst_cancellation_window` (`src/timelocks.rs`). -/
def Timelocks.assert_dst_cancellation_window (t : Timelocks) (now : Nat) :
    Except String Unit :=
  hostRequire
    (decide (phaseBoundary t.created_at t.delays.dst_cancellation_delay ≤ now))
    "Cancellation period (dst) has not started"

/-- `Timelocks::assert_src_cancellation_window` (`src/timelocks.rs`). -/
def Timelocks.assert_src_cancellation_window (t : Timelocks)
    (is_public_caller : Bool) (now : Nat) : Except String Unit :=
  if is_public_caller then
    hostRequire
      (decide (phaseBoundary t.created_at t.delays.src_public_cancellation_delay ≤ now))
      "Public cancellation period (src) has not started"
  else
    hostRequire
      (decide (phaseBoundary t.created_at t.delays.src_cancellation_delay ≤ now))
      "Private cancellation period (src) has not started"

/-! ## Signed orders (`src/signatures.rs`) -/

/-- An account id (NEAR `AccountId`), a string. -/
abbrev AccountId := String

/-- A fungible-token contract id. -/
abbrev TokenId := String

/-- A 32-byte SHA-256 hash (`CryptoHash`), the escrow key. -/
abbrev EscrowId := List Nat

/-- A serialized public key: one curve-type byte followed by 32 key bytes. -/
abbrev PublicKey := List Nat

/-- `SignedOrder` (`src/signatures.rs`): the off-chain order signed by the
maker, with fields in declaration order. -/
structure SignedOrder where
  nonce : Nat
  maker_id : AccountId
  taker_id : AccountId
  asset_id : AccountId
  amount : Nat
  hashlock : EscrowId
  timelocks : TimelockDelays
  is_source : Bool
deriving DecidableEq

/-- `SignedOrder::to_message_bytes` (`src/signatures.rs`): borsh
serialization of the whole struct, i.e. of every field in declaration
order — `nonce` as `u128` LE, the three account ids as length-prefixed
utf8, `amount` as `u128` LE, `hashlock` as 32 raw bytes, the seven `u64`
LE delays, and `is_source` as one byte. -/
def SignedOrder.to_message_bytes (o : SignedOrder) : List Nat :=
  leBytes 16 o.nonce ++
  borshString o.maker_id ++
  borshString o.taker_id ++
  borshString o.asset_id ++
  leBytes 16 o.amount ++
  o.hashlock ++
  encodeDelays o.timelocks ++
  [if o.is_source then 1 else 0]

/-- The encoding claimed by the specification for `SignedOrder` signing:
exactly the fields `(nonce: u128 LE, maker_id: length-prefixed utf8,
asset_id: length-prefixed utf8, amount: u128 LE, hashlock: 32 raw bytes,
timelocks: seven u64 LE in declaration order)`, with no other fields, in
that order.  Stated from the spec's words, to be compared with
`SignedOrder.to_message_bytes` above. -/
def specOrderEncoding (o : SignedOrder) : List Nat :=
  leBytes 16 o.nonce ++
  borshString o.maker_id ++
  borshString o.asset_id ++
  leBytes 16 o.amount ++
  o.hashlock ++
  encodeDelays o.timelocks

/-! ## Deposit ledger (`src/deposit.rs`) -/

/-- `DepositManager` (`src/deposit.rs`): nested maps
account → token → balance, for total and for locked balances. -/
structure DepositManager where
  deposits : List (AccountId × List (TokenId × Nat))
  locked_deposits : List (AccountId × List (TokenId × Nat))
deriving DecidableEq

/-- The empty deposit manager (`DepositManager::new`). -/
def DepositManager.new : DepositManager := ⟨[], []⟩

/-- `get_total_balance` (`src/deposit.rs`): 0 when either map level is absent. -/
def DepositManager.get_total_balance (d : DepositManager)
    (a : AccountId) (t : TokenId) : Nat :=
  (((alGet d.deposits a).bind (fun m => alGet m t)).getD 0)

/-- `get_locked_balance` (`src/deposit.rs`). -/
def DepositManager.get_locked_balance (d : DepositManager)
    (a : AccountId) (t : TokenId) : Nat :=
  (((alGet d.locked_deposits a).bind (fun m => alGet m t)).getD 0)

/-- `get_available_balance` (`src/deposit.rs`): `total.saturating_sub(locked)`
(`Nat` subtraction is saturating). -/
def DepositManager.get_available_balance (d : DepositManager)
    (a : AccountId) (t : TokenId) : Nat :=
  d.get_total_balance a t - d.get_locked_balance a t

/-- `credit_total` (`src/deposit.rs`): inserts an empty inner map when the
account has none, then adds `amount` to the token balance; the addition
is the source's `u128` addition, wrapping modulo 2^128. -/
def DepositManager.credit_total (d : DepositManager)
    (a : AccountId) (t : TokenId) (amount : Nat) : DepositManager :=
  let user := (alGet d.deposits a).getD []
  { d with deposits :=
      alInsert d.deposits a (alInsert user t (((alGet user t).getD 0 + amount) % U128MOD)) }

/-- `debit_total` (`src/deposit.rs`): aborts when the account has no
deposits; otherwise saturating-subtracts from the token balance. -/
def DepositManager.debit_total (d : DepositManager)
    (a : AccountId) (t : TokenId) (amount : Nat) :
    Except String DepositManager :=
  match alGet d.deposits a with
  | none => .error "No deposits for this user"
  | some user => .ok
      { d with deposits :=
          alInsert d.deposits a (alInsert user t ((alGet user t).getD 0 - amount)) }

/-- `credit_locked` (`src/deposit.rs`): the addition is the source's
`u128` addition, wrapping modulo 2^128. -/
def DepositManager.credit_locked (d : DepositManager)
    (a : AccountId) (t : TokenId) (amount : Nat) : DepositManager :=
  let user := (alGet d.locked_deposits a).getD []
  { d with locked_deposits :=
      alInsert d.locked_deposits a (alInsert user t (((alGet user t).getD 0 + amount) % U128MOD)) }

/-- `debit_locked` (`src/deposit.rs`): aborts when the account has no
locked deposits; otherwise saturating-subtracts. -/
def DepositManager.debit_locked (d : DepositManager)
    (a : AccountId) (t : TokenId) (amount : Nat) :
    Except String DepositManager :=
  match alGet d.locked_deposits a with
  | none => .error "No locked deposits for this user"
  | some user => .ok
      { d with locked_deposits :=
          alInsert d.locked_deposits a (alInsert user t ((alGet user t).getD 0 - amount)) }

/-- `assert_available_for_escrow` (`src/deposit.rs`). -/
def DepositManager.assert_available_for_escrow (d : DepositManager)
    (a : AccountId) (t : TokenId) (amount : Nat) : Except String Unit :=
  hostRequire (decide (amount ≤ d.get_available_balance a t))
    "Insufficient available funds for escrow"

/-- `assert_available_for_withdrawal` (`src/deposit.rs`): additionally
requires a positive amount. -/
def DepositManager.assert_available_for_withdrawal (d : DepositManager)
    (a : AccountId) (t : TokenId) (amount : Nat) : Except String Unit := do
  hostRequire (decide (0 < amount)) "Withdrawal amount must be positive"
  hostRequire (decide (amount ≤ d.get_available_balance a t))
    "Insufficient available funds for withdrawal"

/-! ## Escrows and contract state (`src/escrow.rs`, `src/lib.rs`) -/

/-- `Asset` (`src/escrow.rs`): NEP-141 fungible token or native NEAR. -/
inductive Asset where
  | Native : Asset
  | Ft : TokenId → Asset
deriving DecidableEq

/-- Modelled from the spec: `Asset::ft_token_id` is called from
`src/lib.rs` but its definition is not among the provided sources; the
spec (§3) makes `Ft(token_id)` the only case in scope, so this projects
the `Ft` case (the `Native` case never reaches it in this core). -/
def Asset.ft_token_id : Asset → TokenId
  | .Native => ""
  | .Ft t => t

/-- `Escrow` (`src/escrow.rs`): the parameters of one swap instance. -/
structure Escrow where
  hashlock : EscrowId
  maker : AccountId
  taker : AccountId
  asset : Asset
  amount : Nat
  timelocks : Timelocks
  safety_deposit : Nat
  claimed : Bool
  is_source : Bool
deriving DecidableEq

/-- Modelled from the spec: `FtMessage`, the tagged union carried by
`ft_on_transfer`'s `msg` (§6); its declaration is not among the provided
sources, but `src/lib.rs` matches exactly these two variants with exactly
these fields. -/
inductive FtMessage where
  | Deposit : FtMessage
  | CreateDestinationEscrow :
      EscrowId → AccountId → TimelockDelays → FtMessage

/-- `Contract` (`src/lib.rs`): the persisted state. -/
structure Contract where
  owner_id : AccountId
  escrows : List (EscrowId × Escrow)
  deposits : DepositManager
  used_nonces : List Nat
  registered_keys : List (AccountId × List PublicKey)
deriving DecidableEq

/-- `Contract::new` (`src/lib.rs`). -/
def Contract.new (owner : AccountId) : Contract :=
  ⟨owner, [], DepositManager.new, [], []⟩

/-- The host facilities observed by one call: caller, transaction signer,
attached native deposit, block timestamp, and the SHA-256 and Ed25519
host functions. -/
structure HostEnv where
  predecessor : AccountId
  signer : AccountId
  attached_deposit : Nat
  block_timestamp : Nat
  sha256 : List Nat → List Nat
  ed25519Verify : List Nat → List Nat → List Nat → Bool

/-! ## Operations (`src/signatures.rs`, `src/lib.rs`) -/

/-- `verify_maker_signature` (`src/signatures.rs`): caller check, nonce
replay check, message hashing, signature and key shape checks, Ed25519
verification, then nonce commitment.  Returns the grown nonce set. -/
def verify_maker_signature (env : HostEnv) (params : SignedOrder)
    (signature_bytes : List Nat) (public_key : PublicKey)
    (used_nonces : List Nat) : Except String (List Nat) := do
  hostRequire (decide (env.predecessor = params.taker_id))
    "Caller is not the designated resolver"
  hostRequire (! used_nonces.contains params.nonce) "Nonce already used"
  let message_bytes := params.to_message_bytes
  let message_hash := env.sha256 message_bytes
  hostRequire (decide (signature_bytes.length = 64)) "Signature must be 64 bytes"
  hostRequire (decide ((public_key.drop 1).length = 32)) "Invalid public key format"
  hostRequire (env.ed25519Verify signature_bytes message_hash (public_key.drop 1))
    "Signature verification failed"
  .ok (params.nonce :: used_nonces)

/-- `register_keys` (`src/lib.rs`): appends the given keys, deduplicating,
to the transaction signer's registered keys. -/
def Contract.register_keys (env : HostEnv) (c : Contract)
    (public_keys : List PublicKey) : Contract :=
  let keys := (alGet c.registered_keys env.signer).getD []
  let keys1 := public_keys.foldl
    (fun ks pk => if ks.contains pk then ks else ks ++ [pk]) keys
  { c with registered_keys := alInsert c.registered_keys env.signer keys1 }

/-- `ft_on_transfer` (`src/lib.rs`): a deposit credit, or the creation of a
destination-side escrow funded by the transferred tokens.  The token
contract is the call's predecessor. -/
def Contract.ft_on_transfer (env : HostEnv) (c : Contract)
    (sender_id : AccountId) (amount : Nat) (msg : FtMessage) :
    Except String Contract :=
  let token_contract_id := env.predecessor
  match msg with
  | .Deposit =>
      .ok { c with deposits := c.deposits.credit_total sender_id token_contract_id amount }
  | .CreateDestinationEscrow hashlock maker_id timelocks => do
      let resolver_id := sender_id
      let safety_deposit := env.attached_deposit
      hostRequire (decide (0 < safety_deposit))
        "A native NEAR safety deposit must be attached"
      hostRequire (! alContains c.escrows hashlock) "Escrow already exists"
      timelocks.validate
      let escrow : Escrow :=
        { hashlock := hashlock
          maker := maker_id
          taker := resolver_id
          asset := .Ft token_contract_id
          amount := amount
          safety_deposit := safety_deposit
          is_source := false
          timelocks := ⟨env.block_timestamp, timelocks⟩
          claimed := false }
      .ok { c with escrows := alInsert c.escrows hashlock escrow }

/-- `initiate_source_escrow` (`src/lib.rs`): resolver-submitted creation of
a source-side escrow from a maker's signed order.  Checks, in source
order: positive safety deposit, key registration, signature verification
(which commits the nonce), timelock validation, maker availability; then
locks the maker's funds and inserts the escrow (the source performs no
collision check on the hashlock here). -/
def Contract.initiate_source_escrow (env : HostEnv) (c : Contract)
    (params : SignedOrder) (signature_bytes : List Nat)
    (public_key : PublicKey) : Except String Contract := do
  let resolver_id := env.predecessor
  let safety_deposit := env.attached_deposit
  hostRequire (decide (0 < safety_deposit))
    "A native NEAR safety deposit must be attached"
  let maker_keys := (alGet c.registered_keys params.maker_id).getD []
  hostRequire (maker_keys.contains public_key) "Public key not registered for maker"
  let nonces1 ← verify_maker_signature env params signature_bytes public_key c.used_nonces
  params.timelocks.validate
  c.deposits.assert_available_for_escrow params.maker_id params.asset_id params.amount
  let deposits1 := c.deposits.credit_locked params.maker_id params.asset_id params.amount
  let escrow : Escrow :=
    { hashlock := params.hashlock
      maker := params.maker_id
      taker := resolver_id
      asset := .Ft params.asset_id
      amount := params.amount
      safety_deposit := safety_deposit
      is_source := true
      timelocks := ⟨env.block_timestamp, params.timelocks⟩
      claimed := false }
  .ok { c with
          escrows := alInsert c.escrows params.hashlock escrow
          deposits := deposits1
          used_nonces := nonces1 }

/-- An outbound fungible-token transfer instruction dispatched by the
contract (`ext_fungible_token::ft_transfer`). -/
structure FtTransfer where
  token : TokenId
  receiver : AccountId
  amount : Nat
deriving DecidableEq

/-- An outbound native-NEAR transfer (`Promise::transfer`). -/
structure NativeTransfer where
  receiver : AccountId
  amount : Nat
deriving DecidableEq

/-- The arguments of the chained `on_escrow_settled` callback. -/
structure SettleArgs where
  hashlock : EscrowId
  maker : AccountId
  taker : AccountId
  is_source : Bool
  is_cancel : Bool
deriving DecidableEq

/-- What a successful `withdraw` or `cancel` produces: the new state and
the dispatched promises (the main transfer is absent for a source-side
cancel, whose refund is internal). -/
structure ClaimOutcome where
  state : Contract
  main : Option FtTransfer
  safety : NativeTransfer
  callback : SettleArgs
deriving DecidableEq

/-- `withdraw` (`src/lib.rs`): claim an escrow by revealing the secret.
The escrow key is the SHA-256 of the secret bytes.  On success the record
is marked claimed and two transfers are dispatched: the main token
transfer to the taker (source) or the maker (destination), and the safety
deposit to the caller. -/
def Contract.withdraw (env : HostEnv) (c : Contract) (secret_bytes : List Nat) :
    Except String ClaimOutcome := do
  let hashlock_bytes := env.sha256 secret_bytes
  match alGet c.escrows hashlock_bytes with
  | none => .error "Escrow not found"
  | some escrow => do
      hostRequire (! escrow.claimed) "Escrow already claimed"
      let is_public_caller := decide (env.predecessor ≠ escrow.taker)
      (if escrow.is_source then
        escrow.timelocks.assert_src_withdrawal_window is_public_caller env.block_timestamp
      else
        escrow.timelocks.assert_dst_withdrawal_window is_public_caller env.block_timestamp)
      let updated_escrow := { escrow with claimed := true }
      let caller := env.predecessor
      let recipient := if escrow.is_source then escrow.taker else escrow.maker
      .ok { state := { c with escrows := alInsert c.escrows hashlock_bytes updated_escrow }
            main := some ⟨escrow.asset.ft_token_id, recipient, escrow.amount⟩
            safety := ⟨caller, escrow.safety_deposit⟩
            callback := ⟨hashlock_bytes, escrow.maker, escrow.taker, escrow.is_source, false⟩ }

/-- `cancel` (`src/lib.rs`): cancel an expired escrow.  On success the
record is marked claimed; a destination escrow refunds the tokens to the
taker, a source escrow refunds internally in the settlement callback; the
safety deposit goes to the caller. -/
def Contract.cancel (env : HostEnv) (c : Contract) (hashlock : EscrowId) :
    Except String ClaimOutcome := do
  match alGet c.escrows hashlock with
  | none => .error "Escrow not found"
  | some escrow => do
      hostRequire (! escrow.claimed) "Escrow already claimed"
      let is_public_caller := decide (env.predecessor ≠ escrow.taker)
      (if escrow.is_source then
        escrow.timelocks.assert_src_cancellation_window is_public_caller env.block_timestamp
      else
        escrow.timelocks.assert_dst_cancellation_window env.block_timestamp)
      let updated_escrow := { escrow with claimed := true }
      let caller := env.predecessor
      let main := if escrow.is_source then
          none
        else
          some (⟨escrow.asset.ft_token_id, escrow.taker, escrow.amount⟩ : FtTransfer)
      .ok { state := { c with escrows := alInsert c.escrows hashlock updated_escrow }
            main := main
            safety := ⟨caller, escrow.safety_deposit⟩
            callback := ⟨hashlock, escrow.maker, escrow.taker, escrow.is_source, true⟩ }

/-- `withdraw_deposit` (`src/lib.rs`): debit the caller's total balance and
dispatch the token transfer, chaining `on_deposit_withdrawn`. -/
def Contract.withdraw_deposit (env : HostEnv) (c : Contract)
    (token_id : TokenId) (amount : Nat) :
    Except String (Contract × FtTransfer) := do
  let account_id := env.predecessor
  c.deposits.assert_available_for_withdrawal account_id token_id amount
  let deposits1 ← c.deposits.debit_total account_id token_id amount
  .ok ({ c with deposits := deposits1 }, ⟨token_id, account_id, amount⟩)

/-- `on_escrow_settled` (`src/lib.rs`): private callback chained after the
two transfers of `withdraw`/`cancel`.  It receives the two promise results
(`result0` for the main transfer, `result1` for the safety-deposit
transfer) but its body inspects `env::promise_result(0)` only.  On that
success it settles the ledger for source escrows; otherwise it reverts
the `claimed` flag. -/
def Contract.on_escrow_settled (c : Contract) (result0 result1 : Bool)
    (hashlock : EscrowId) (maker_id taker_id : AccountId)
    (is_source is_cancel : Bool) : Except String Contract := do
  match alGet c.escrows hashlock with
  | none => .error "Escrow not found in callback"
  | some escrow =>
      if result0 then
        if is_source then
          let amount := escrow.amount
          let token_id := escrow.asset.ft_token_id
          if is_cancel then do
            let d1 ← c.deposits.debit_locked maker_id token_id amount
            .ok { c with deposits := d1 }
          else do
            let d1 ← c.deposits.debit_locked maker_id token_id amount
            let d2 ← d1.debit_total maker_id token_id amount
            .ok { c with deposits := d2 }
        else
          .ok c
      else
        .ok { c with escrows := alInsert c.escrows hashlock { escrow with claimed := false } }

/-- `on_deposit_withdrawn` (`src/lib.rs`): private callback for
`withdraw_deposit`; on transfer failure it re-credits the debit. -/
def Contract.on_deposit_withdrawn (c : Contract) (result_ok : Bool)
    (account_id : AccountId) (token_id : TokenId) (amount : Nat) : Contract :=
  if result_ok then c
  else { c with deposits := c.deposits.credit_total account_id token_id amount }

/-! ## Transition system

One atomic step of the contract: any public entry point with arbitrary
host environment and arguments, or one of the two private callbacks with
arbitrary promise results and arguments (an over-approximation of the
arguments the contract itself passes at dispatch time, sound for proving
invariants of all reachable states).  An aborted call (`Except.error`)
leaves the persisted state unchanged, as the host guarantees. -/

inductive Op where
  | registerKeys (env : HostEnv) (public_keys : List PublicKey) : Op
  | ftOnTransfer (env : HostEnv) (sender_id : AccountId) (amount : Nat)
      (msg : FtMessage) : Op
  | initiateSourceEscrow (env : HostEnv) (params : SignedOrder)
      (signature_bytes : List Nat) (public_key : PublicKey) : Op
  | withdrawOp (env : HostEnv) (secret_bytes : List Nat) : Op
  | cancelOp (env : HostEnv) (hashlock : EscrowId) : Op
  | withdrawDeposit (env : HostEnv) (token_id : TokenId) (amount : Nat) : Op
  | onEscrowSettled (result0 result1 : Bool) (hashlock : EscrowId)
      (maker_id taker_id : AccountId) (is_source is_cancel : Bool) : Op
  | onDepositWithdrawn (result_ok : Bool) (account_id : AccountId)
      (token_id : TokenId) (amount : Nat) : Op

/-- The state after one call: the new state on success, the old state when
the call aborts. -/
def stepOp (c : Contract) (op : Op) : Contract :=
  match op with
  | .registerKeys env pks => c.register_keys env pks
  | .ftOnTransfer env sender amount msg =>
      ((c.ft_on_transfer env sender amount msg).toOption).getD c
  | .initiateSourceEscrow env params sig pk =>
      ((c.initiate_source_escrow env params sig pk).toOption).getD c
  | .withdrawOp env secret =>
      (((c.withdraw env secret).toOption).map ClaimOutcome.state).getD c
  | .cancelOp env hashlock =>
      (((c.cancel env hashlock).toOption).map ClaimOutcome.state).getD c
  | .withdrawDeposit env token amount =>
      (((c.withdraw_deposit env token amount).toOption).map Prod.fst).getD c
  | .onEscrowSettled r0 r1 h maker taker issrc iscan =>
      ((c.on_escrow_settled r0 r1 h maker taker issrc iscan).toOption).getD c
  | .onDepositWithdrawn ok account token amount =>
      c.on_deposit_withdrawn ok account token amount

/-- The states reachable from a freshly initialized contract by any
sequence of calls. -/
inductive Reachable : Contract → Prop where
  | init (owner : AccountId) : Reachable (Contract.new owner)
  | step {c : Contract} (h : Reachable c) (op : Op) : Reachable (stepOp c op)

/-! ## Inversion helpers for `Except` computations -/

theorem exceptBind_ok {α β : Type} (e : Except String α)
    (f : α → Except String β) (b : β) :
    (e >>= f) = .ok b ↔ ∃ a, e = .ok a ∧ f a = .ok b := by
  cases e <;> simp [Bind.bind, Except.bind]

theorem hostRequire_bind_ok {β : Type} (cond : Bool) (msg : String)
    (f : Unit → Except String β) (b : β) :
    (hostRequire cond msg >>= f) = .ok b ↔ cond = true ∧ f () = .ok b := by
  cases cond <;> simp [hostRequire, Bind.bind, Except.bind]

/-! ## Pointwise behaviour of the ledger mutations -/

theorem credit_total_total (d : DepositManager) (a : AccountId) (t : TokenId)
    (amt : Nat) (a1 : AccountId) (t1 : TokenId) :
    (d.credit_total a t amt).get_total_balance a1 t1 =
      if a = a1 ∧ t = t1 then (d.get_total_balance a1 t1 + amt) % U128MOD
      else d.get_total_balance a1 t1 := by
  unfold DepositManager.credit_total DepositManager.get_total_balance
  simp only [alGet_alInsert]
  by_cases ha : a = a1
  · subst ha
    cases hu : alGet d.deposits a with
    | none => by_cases ht : t = t1 <;> simp [hu, alGet_alInsert, ht, alGet]
    | some u => by_cases ht : t = t1 <;> simp [hu, alGet_alInsert, ht]
  · simp [ha]

theorem credit_total_locked (d : DepositManager) (a : AccountId) (t : TokenId)
    (amt : Nat) (a1 : AccountId) (t1 : TokenId) :
    (d.credit_total a t amt).get_locked_balance a1 t1 =
      d.get_locked_balance a1 t1 := rfl

theorem credit_locked_locked (d : DepositManager) (a : AccountId) (t : TokenId)
    (amt : Nat) (a1 : AccountId) (t1 : TokenId) :
    (d.credit_locked a t amt).get_locked_balance a1 t1 =
      if a = a1 ∧ t = t1 then (d.get_locked_balance a1 t1 + amt) % U128MOD
      else d.get_locked_balance a1 t1 := by
  unfold DepositManager.credit_locked DepositManager.get_locked_balance
  simp only [alGet_alInsert]
  by_cases ha : a = a1
  · subst ha
    cases hu : alGet d.locked_deposits a with
    | none => by_cases ht : t = t1 <;> simp [hu, alGet_alInsert, ht, alGet]
    | some u => by_cases ht : t = t1 <;> simp [hu, alGet_alInsert, ht]
  · simp [ha]

theorem credit_locked_total (d : DepositManager) (a : AccountId) (t : TokenId)
    (amt : Nat) (a1 : AccountId) (t1 : TokenId) :
    (d.credit_locked a t amt).get_total_balance a1 t1 =
      d.get_total_balance a1 t1 := rfl

theorem debit_total_ok (d d1 : DepositManager) (a : AccountId) (t : TokenId)
    (amt : Nat) (h : d.debit_total a t amt = .ok d1) :
    (∀ a1 t1, d1.get_total_balance a1 t1 =
      if a = a1 ∧ t = t1 then d.get_total_balance a1 t1 - amt
      else d.get_total_balance a1 t1) ∧
    d1.locked_deposits = d.locked_deposits := by
  unfold DepositManager.debit_total at h
  cases hu : alGet d.deposits a with
  | none => simp [hu] at h
  | some u =>
      simp only [hu] at h
      injection h with h
      subst h
      refine ⟨fun a1 t1 => ?_, rfl⟩
      unfold DepositManager.get_total_balance
      simp only [alGet_alInsert]
      by_cases ha : a = a1
      · subst ha
        by_cases ht : t = t1 <;> simp [hu, alGet_alInsert, ht]
      · simp [ha]

theorem debit_locked_ok (d d1 : DepositManager) (a : AccountId) (t : TokenId)
    (amt : Nat) (h : d.debit_locked a t amt = .ok d1) :
    (∀ a1 t1, d1.get_locked_balance a1 t1 =
      if a = a1 ∧ t = t1 then d.get_locked_balance a1 t1 - amt
      else d.get_locked_balance a1 t1) ∧
    d1.deposits = d.deposits := by
  unfold DepositManager.debit_locked at h
  cases hu : alGet d.locked_deposits a with
  | none => simp [hu] at h
  | some u =>
      simp only [hu] at h
      injection h with h
      subst h
      refine ⟨fun a1 t1 => ?_, rfl⟩
      unfold DepositManager.get_locked_balance
      simp only [alGet_alInsert]
      by_cases ha : a = a1
      · subst ha
        by_cases ht : t = t1 <;> simp [hu, alGet_alInsert, ht]
      · simp [ha]

theorem get_total_balance_congr (d d1 : DepositManager)
    (h : d1.deposits = d.deposits) (a : AccountId) (t : TokenId) :
    d1.get_total_balance a t = d.get_total_balance a t := by
  unfold DepositManager.get_total_balance
  rw [h]

theorem get_locked_balance_congr (d d1 : DepositManager)
    (h : d1.locked_deposits = d.locked_deposits) (a : AccountId) (t : TokenId) :
    d1.get_locked_balance a t = d.get_locked_balance a t := by
  unfold DepositManager.get_locked_balance
  rw [h]

/-! ## The ledger invariant (spec P1 / I6): locked never exceeds total -/

/-- For every account and token, the locked balance is at most the total
balance, and the total balance is a `u128` value. -/
def LedgerOk (d : DepositManager) : Prop :=
  ∀ a t, d.get_locked_balance a t ≤ d.get_total_balance a t ∧
    d.get_total_balance a t < U128MOD

theorem ledgerOk_credit_total (d : DepositManager) (a : AccountId)
    (t : TokenId) (amt : Nat) (hok : LedgerOk d)
    (hno : d.get_total_balance a t + amt < U128MOD) :
    LedgerOk (d.credit_total a t amt) := by
  intro a1 t1
  rw [credit_total_total, credit_total_locked]
  obtain ⟨h1, h2⟩ := hok a1 t1
  by_cases hc : a = a1 ∧ t = t1
  · obtain ⟨ha, ht⟩ := hc
    subst ha
    subst ht
    rw [if_pos ⟨rfl, rfl⟩, Nat.mod_eq_of_lt hno]
    exact ⟨by omega, hno⟩
  · rw [if_neg hc]
    exact ⟨h1, h2⟩

theorem ledgerOk_credit_locked (d : DepositManager) (a : AccountId)
    (t : TokenId) (amt : Nat) (hok : LedgerOk d)
    (hroom : d.get_locked_balance a t + amt ≤ d.get_total_balance a t) :
    LedgerOk (d.credit_locked a t amt) := by
  intro a1 t1
  rw [credit_locked_locked, credit_locked_total]
  obtain ⟨h1, h2⟩ := hok a1 t1
  by_cases hc : a = a1 ∧ t = t1
  · obtain ⟨ha, ht⟩ := hc
    subst ha
    subst ht
    rw [if_pos ⟨rfl, rfl⟩, Nat.mod_eq_of_lt (lt_of_le_of_lt hroom h2)]
    exact ⟨hroom, h2⟩
  · rw [if_neg hc]
    exact ⟨h1, h2⟩

theorem ledgerOk_debit_locked (d d1 : DepositManager) (a : AccountId)
    (t : TokenId) (amt : Nat) (h : d.debit_locked a t amt = .ok d1)
    (hok : LedgerOk d) : LedgerOk d1 := by
  intro a1 t1
  obtain ⟨hl, hd⟩ := debit_locked_ok d d1 a t amt h
  rw [hl, get_total_balance_congr d d1 hd]
  obtain ⟨h1, h2⟩ := hok a1 t1
  refine ⟨?_, h2⟩
  split <;> omega

theorem ledgerOk_debit_total_guarded (d d1 : DepositManager) (a : AccountId)
    (t : TokenId) (amt : Nat) (h : d.debit_total a t amt = .ok d1)
    (hok : LedgerOk d)
    (havail : amt ≤ d.get_total_balance a t - d.get_locked_balance a t) :
    LedgerOk d1 := by
  intro a1 t1
  obtain ⟨ht, hl⟩ := debit_total_ok d d1 a t amt h
  rw [ht, get_locked_balance_congr d d1 hl]
  obtain ⟨h1, h2⟩ := hok a1 t1
  by_cases hc : a = a1 ∧ t = t1
  · obtain ⟨ha1, ht1⟩ := hc
    subst ha1
    subst ht1
    rw [if_pos ⟨rfl, rfl⟩]
    exact ⟨by omega, by omega⟩
  · rw [if_neg hc]
    exact ⟨h1, h2⟩

theorem ledgerOk_debit_locked_then_total (d d1 d2 : DepositManager)
    (a : AccountId) (t : TokenId) (amt : Nat)
    (h1 : d.debit_locked a t amt = .ok d1)
    (h2 : d1.debit_total a t amt = .ok d2)
    (hok : LedgerOk d) : LedgerOk d2 := by
  intro a1 t1
  obtain ⟨hl1, hd1⟩ := debit_locked_ok d d1 a t amt h1
  obtain ⟨ht2, hl2⟩ := debit_total_ok d1 d2 a t amt h2
  rw [ht2, get_locked_balance_congr d1 d2 hl2, hl1,
    get_total_balance_congr d d1 hd1]
  obtain ⟨h3, h4⟩ := hok a1 t1
  by_cases hc : a = a1 ∧ t = t1
  · obtain ⟨ha1, ht1⟩ := hc
    subst ha1
    subst ht1
    rw [if_pos ⟨rfl, rfl⟩, if_pos ⟨rfl, rfl⟩]
    exact ⟨by omega, by omega⟩
  · rw [if_neg hc, if_neg hc]
    exact ⟨h3, h4⟩

/-! ## Inversion lemmas: what a successful call did -/

theorem hostRequire_eq_ok (cond : Bool) (msg : String) (u : Unit) :
    hostRequire cond msg = .ok u ↔ cond = true := by
  cases cond <;> simp [hostRequire]

theorem verify_maker_signature_ok (env : HostEnv) (p : SignedOrder)
    (sig : List Nat) (pk : PublicKey) (used n1 : List Nat)
    (h : verify_maker_signature env p sig pk used = .ok n1) :
    env.predecessor = p.taker_id ∧
    used.contains p.nonce = false ∧
    n1 = p.nonce :: used := by
  unfold verify_maker_signature at h
  simp only [exceptBind_ok, hostRequire_eq_ok, exists_const, decide_eq_true_eq,
    Bool.not_eq_true', Except.ok.injEq] at h
  obtain ⟨h1, h2, h3, h4, h5, h6⟩ := h
  exact ⟨h1, h2, h6.symm⟩

theorem initiate_source_escrow_ok (env : HostEnv) (c c1 : Contract)
    (p : SignedOrder) (sig : List Nat) (pk : PublicKey)
    (h : c.initiate_source_escrow env p sig pk = .ok c1) :
    0 < env.attached_deposit ∧
    ((alGet c.registered_keys p.maker_id).getD []).contains pk = true ∧
    env.predecessor = p.taker_id ∧
    c.used_nonces.contains p.nonce = false ∧
    p.timelocks.validate = .ok () ∧
    p.amount ≤ c.deposits.get_available_balance p.maker_id p.asset_id ∧
    c1 = { c with
      escrows := alInsert c.escrows p.hashlock
        ⟨p.hashlock, p.maker_id, env.predecessor, .Ft p.asset_id, p.amount,
          ⟨env.block_timestamp, p.timelocks⟩, env.attached_deposit, false, true⟩,
      deposits := c.deposits.credit_locked p.maker_id p.asset_id p.amount,
      used_nonces := p.nonce :: c.used_nonces } := by
  unfold Contract.initiate_source_escrow
    DepositManager.assert_available_for_escrow at h
  simp only [exceptBind_ok, hostRequire_eq_ok, exists_const, decide_eq_true_eq,
    Except.ok.injEq] at h
  obtain ⟨hdep, hkey, nonces1, hverify, u, hval, havail, hco⟩ := h
  obtain ⟨htaker, hnonce, hn1⟩ :=
    verify_maker_signature_ok env p sig pk c.used_nonces nonces1 hverify
  subst hn1
  refine ⟨hdep, hkey, htaker, hnonce, ?_, havail, hco.symm⟩
  cases u
  exact hval

theorem ft_on_transfer_deposit (env : HostEnv) (c : Contract)
    (sender : AccountId) (amount : Nat) :
    c.ft_on_transfer env sender amount .Deposit =
      .ok { c with deposits := c.deposits.credit_total sender env.predecessor amount } :=
  rfl

theorem ft_on_transfer_create_ok (env : HostEnv) (c c1 : Contract)
    (sender : AccountId) (amount : Nat) (hashlock : EscrowId)
    (maker_id : AccountId) (tl : TimelockDelays)
    (h : c.ft_on_transfer env sender amount
      (.CreateDestinationEscrow hashlock maker_id tl) = .ok c1) :
    0 < env.attached_deposit ∧
    alContains c.escrows hashlock = false ∧
    tl.validate = .ok () ∧
    c1 = { c with
      escrows := alInsert c.escrows hashlock
        ⟨hashlock, maker_id, sender, .Ft env.predecessor, amount,
          ⟨env.block_timestamp, tl⟩, env.attached_deposit, false, false⟩ } := by
  unfold Contract.ft_on_transfer at h
  simp only [exceptBind_ok, hostRequire_eq_ok, exists_const, decide_eq_true_eq,
    Bool.not_eq_true', Except.ok.injEq] at h
  obtain ⟨hdep, hcol, u, hval, hco⟩ := h
  refine ⟨hdep, hcol, ?_, hco.symm⟩
  cases u
  exact hval

theorem withdraw_ok (env : HostEnv) (c : Contract) (secret : List Nat)
    (out : ClaimOutcome) (h : c.withdraw env secret = .ok out) :
    ∃ e, alGet c.escrows (env.sha256 secret) = some e ∧
      e.claimed = false ∧
      out.state =
        { c with escrows := alInsert c.escrows (env.sha256 secret) { e with claimed := true } } ∧
      out.main = some ⟨e.asset.ft_token_id,
        if e.is_source then e.taker else e.maker, e.amount⟩ ∧
      out.safety = ⟨env.predecessor, e.safety_deposit⟩ ∧
      out.callback = ⟨env.sha256 secret, e.maker, e.taker, e.is_source, false⟩ := by
  unfold Contract.withdraw at h
  cases he : alGet c.escrows (env.sha256 secret) with
  | none => simp [he] at h
  | some e =>
      simp only [he] at h
      simp only [exceptBind_ok, hostRequire_eq_ok, exists_const,
        Bool.not_eq_true', Except.ok.injEq] at h
      obtain ⟨hcl, u, hwin, hout⟩ := h
      refine ⟨e, rfl, hcl, ?_⟩
      rw [← hout]
      exact ⟨rfl, rfl, rfl, rfl⟩

theorem cancel_ok (env : HostEnv) (c : Contract) (hashlock : EscrowId)
    (out : ClaimOutcome) (h : c.cancel env hashlock = .ok out) :
    ∃ e, alGet c.escrows hashlock = some e ∧
      e.claimed = false ∧
      out.state =
        { c with escrows := alInsert c.escrows hashlock { e with claimed := true } } ∧
      out.main = (if e.is_source then none else
        some ⟨e.asset.ft_token_id, e.taker, e.amount⟩) ∧
      out.safety = ⟨env.predecessor, e.safety_deposit⟩ ∧
      out.callback = ⟨hashlock, e.maker, e.taker, e.is_source, true⟩ := by
  unfold Contract.cancel at h
  cases he : alGet c.escrows hashlock with
  | none => simp [he] at h
  | some e =>
      simp only [he] at h
      simp only [exceptBind_ok, hostRequire_eq_ok, exists_const,
        Bool.not_eq_true', Except.ok.injEq] at h
      obtain ⟨hcl, u, hwin, hout⟩ := h
      refine ⟨e, rfl, hcl, ?_⟩
      rw [← hout]
      exact ⟨rfl, rfl, rfl, rfl⟩

theorem withdraw_deposit_ok (env : HostEnv) (c c1 : Contract)
    (token : TokenId) (amount : Nat) (tr : FtTransfer)
    (h : c.withdraw_deposit env token amount = .ok (c1, tr)) :
    0 < amount ∧
    amount ≤ c.deposits.get_available_balance env.predecessor token ∧
    (∃ d1, c.deposits.debit_total env.predecessor token amount = .ok d1 ∧
      c1 = { c with deposits := d1 }) ∧
    tr = ⟨token, env.predecessor, amount⟩ := by
  unfold Contract.withdraw_deposit DepositManager.assert_available_for_withdrawal at h
  simp only [exceptBind_ok, hostRequire_eq_ok, exists_const, decide_eq_true_eq,
    Except.ok.injEq, Prod.mk.injEq] at h
  obtain ⟨⟨hpos, havail⟩, d1, hdeb, hc1, htr⟩ := h
  exact ⟨hpos, havail, ⟨d1, hdeb, hc1.symm⟩, htr.symm⟩

theorem on_escrow_settled_ok (c c1 : Contract) (r0 r1 : Bool) (hk : EscrowId)
    (maker taker : AccountId) (issrc iscan : Bool)
    (hok : c.on_escrow_settled r0 r1 hk maker taker issrc iscan = .ok c1) :
    ∃ e, alGet c.escrows hk = some e ∧
      ((r0 = false ∧
        c1 = { c with escrows := alInsert c.escrows hk { e with claimed := false } }) ∨
       (r0 = true ∧ issrc = false ∧ c1 = c) ∨
       (r0 = true ∧ issrc = true ∧ iscan = true ∧
        ∃ d1, c.deposits.debit_locked maker e.asset.ft_token_id e.amount = .ok d1 ∧
          c1 = { c with deposits := d1 }) ∨
       (r0 = true ∧ issrc = true ∧ iscan = false ∧
        ∃ d1 d2, c.deposits.debit_locked maker e.asset.ft_token_id e.amount = .ok d1 ∧
          d1.debit_total maker e.asset.ft_token_id e.amount = .ok d2 ∧
          c1 = { c with deposits := d2 })) := by
  unfold Contract.on_escrow_settled at hok
  cases he : alGet c.escrows hk with
  | none => simp [he] at hok
  | some e =>
      simp only [he] at hok
      refine ⟨e, rfl, ?_⟩
      cases r0 with
      | false =>
          simp only [Bool.false_eq_true, if_false, Except.ok.injEq] at hok
          exact Or.inl ⟨rfl, hok.symm⟩
      | true =>
          simp only [if_true] at hok
          cases issrc with
          | false =>
              simp only [Bool.false_eq_true, if_false, Except.ok.injEq] at hok
              exact Or.inr (Or.inl ⟨rfl, rfl, hok.symm⟩)
          | true =>
              simp only [if_true] at hok
              cases iscan with
              | true =>
                  simp only [if_true, exceptBind_ok, Except.ok.injEq] at hok
                  obtain ⟨d1, hd1, hco⟩ := hok
                  exact Or.inr (Or.inr (Or.inl ⟨rfl, rfl, rfl, d1, hd1, hco.symm⟩))
              | false =>
                  simp only [Bool.false_eq_true, if_false, exceptBind_ok,
                    Except.ok.injEq] at hok
                  obtain ⟨d1, hd1, d2, hd2, hco⟩ := hok
                  exact Or.inr (Or.inr (Or.inr ⟨rfl, rfl, rfl, d1, d2, hd1, hd2, hco.symm⟩))

/-! ## The ledger invariant under the no-overflow proviso

Under the wrapping `u128` arithmetic of the binary, a credit that
overflows can drop a total balance below the locked balance (see the C3
counterexample), so the invariant is proved for the runs in which every
total-balance credit stays within `u128`. -/

/-- The operation's total-balance credits (a `Deposit` via
`ft_on_transfer`, and the failure path of `on_deposit_withdrawn`) stay
below 2^128 in the given state; every other operation is unconstrained. -/
def OpNoOverflow (c : Contract) (op : Op) : Prop :=
  match op with
  | .ftOnTransfer env sender amount .Deposit =>
      c.deposits.get_total_balance sender env.predecessor + amount < U128MOD
  | .onDepositWithdrawn false account token amount =>
      c.deposits.get_total_balance account token + amount < U128MOD
  | _ => True

/-- The states reachable from a freshly initialized contract by sequences
of calls in which no total-balance credit overflows `u128`. -/
inductive ReachableSafe : Contract → Prop where
  | init (owner : AccountId) : ReachableSafe (Contract.new owner)
  | step {c : Contract} (h : ReachableSafe c) (op : Op)
      (hno : OpNoOverflow c op) : ReachableSafe (stepOp c op)

theorem stepOp_ledgerOk (c : Contract) (op : Op)
    (hok : LedgerOk c.deposits) (hno : OpNoOverflow c op) :
    LedgerOk (stepOp c op).deposits := by
  cases op with
  | registerKeys env pks =>
      exact hok
  | ftOnTransfer env sender amount msg =>
      cases hres : c.ft_on_transfer env sender amount msg with
      | error m => simp [stepOp, hres, Except.toOption]; exact hok
      | ok c1 =>
          simp only [stepOp, hres, Except.toOption, Option.getD_some]
          cases msg with
          | Deposit =>
              rw [ft_on_transfer_deposit] at hres
              injection hres with hres
              rw [← hres]
              simp only [OpNoOverflow] at hno
              exact ledgerOk_credit_total _ _ _ _ hok hno
          | CreateDestinationEscrow hl mk tl =>
              obtain ⟨_, _, _, hco⟩ :=
                ft_on_transfer_create_ok env c c1 sender amount hl mk tl hres
              rw [hco]
              exact hok
  | initiateSourceEscrow env p sig pk =>
      cases hres : c.initiate_source_escrow env p sig pk with
      | error m => simp [stepOp, hres, Except.toOption]; exact hok
      | ok c1 =>
          simp only [stepOp, hres, Except.toOption, Option.getD_some]
          obtain ⟨_, _, _, _, _, havail, hco⟩ :=
            initiate_source_escrow_ok env c c1 p sig pk hres
          rw [hco]
          refine ledgerOk_credit_locked _ _ _ _ hok ?_
          obtain ⟨h2, h3⟩ := hok p.maker_id p.asset_id
          have h4 : c.deposits.get_available_balance p.maker_id p.asset_id =
              c.deposits.get_total_balance p.maker_id p.asset_id -
              c.deposits.get_locked_balance p.maker_id p.asset_id := rfl
          rw [h4] at havail
          omega
  | withdrawOp env secret =>
      cases hres : c.withdraw env secret with
      | error m => simp [stepOp, hres, Except.toOption]; exact hok
      | ok out =>
          simp only [stepOp, hres, Except.toOption, Option.map_some, Option.map_some', Option.getD_some]
          obtain ⟨e, _, _, hstate, _⟩ := withdraw_ok env c secret out hres
          rw [hstate]
          exact hok
  | cancelOp env hl =>
      cases hres : c.cancel env hl with
      | error m => simp [stepOp, hres, Except.toOption]; exact hok
      | ok out =>
          simp only [stepOp, hres, Except.toOption, Option.map_some, Option.map_some', Option.getD_some]
          obtain ⟨e, _, _, hstate, _⟩ := cancel_ok env c hl out hres
          rw [hstate]
          exact hok
  | withdrawDeposit env token amount =>
      cases hres : c.withdraw_deposit env token amount with
      | error m => simp [stepOp, hres, Except.toOption]; exact hok
      | ok pr =>
          obtain ⟨c1, tr⟩ := pr
          simp only [stepOp, hres, Except.toOption, Option.map_some, Option.map_some', Option.getD_some]
          obtain ⟨hpos, havail, ⟨d1, hdeb, hc1⟩, htr⟩ :=
            withdraw_deposit_ok env c c1 token amount tr hres
          rw [hc1]
          refine ledgerOk_debit_total_guarded _ _ _ _ _ hdeb hok ?_
          exact havail
  | onEscrowSettled r0 r1 hl maker taker issrc iscan =>
      cases hres : c.on_escrow_settled r0 r1 hl maker taker issrc iscan with
      | error m => simp [stepOp, hres, Except.toOption]; exact hok
      | ok c1 =>
          simp only [stepOp, hres, Except.toOption, Option.getD_some]
          obtain ⟨e, he, hcases⟩ :=
            on_escrow_settled_ok c c1 r0 r1 hl maker taker issrc iscan hres
          rcases hcases with ⟨_, hco⟩ | ⟨_, _, hco⟩ |
            ⟨_, _, _, d1, hd1, hco⟩ | ⟨_, _, _, d1, d2, hd1, hd2, hco⟩
          · rw [hco]; exact hok
          · rw [hco]; exact hok
          · rw [hco]
            exact ledgerOk_debit_locked _ _ _ _ _ hd1 hok
          · rw [hco]
            exact ledgerOk_debit_locked_then_total _ _ _ _ _ _ hd1 hd2 hok
  | onDepositWithdrawn ok account token amount =>
      cases ok with
      | true => exact hok
      | false =>
          simp only [OpNoOverflow] at hno
          exact ledgerOk_credit_total _ _ _ _ hok hno

/-- Every overflow-free reachable state satisfies the ledger invariant. -/
theorem reachableSafe_ledgerOk (c : Contract) (h : ReachableSafe c) :
    LedgerOk c.deposits := by
  induction h with
  | init owner =>
      intro a t
      constructor
      · simp [Contract.new, DepositManager.new, DepositManager.get_locked_balance, alGet]
      · exact (by decide : (0 : Nat) < U128MOD)
  | step h op hno ih =>
      exact stepOp_ledgerOk _ op ih hno

/-! ## The safety-deposit invariant: every stored escrow has a positive
safety deposit -/

/-- Every escrow in the store has `safety_deposit > 0` (spec invariant I3). -/
def EscrowSafetyInv (es : List (EscrowId × Escrow)) : Prop :=
  ∀ hk e, alGet es hk = some e → 0 < e.safety_deposit

theorem escrowSafetyInv_insert (es : List (EscrowId × Escrow)) (k : EscrowId)
    (v : Escrow) (hinv : EscrowSafetyInv es) (hv : 0 < v.safety_deposit) :
    EscrowSafetyInv (alInsert es k v) := by
  intro hk e h
  rw [alGet_alInsert] at h
  by_cases hkk : k = hk
  · rw [if_pos hkk] at h
    injection h with h
    rw [← h]
    exact hv
  · rw [if_neg hkk] at h
    exact hinv hk e h

theorem stepOp_escrowSafetyInv (c : Contract) (op : Op)
    (hinv : EscrowSafetyInv c.escrows) :
    EscrowSafetyInv (stepOp c op).escrows := by
  cases op with
  | registerKeys env pks =>
      exact hinv
  | ftOnTransfer env sender amount msg =>
      cases hres : c.ft_on_transfer env sender amount msg with
      | error m => simp [stepOp, hres, Except.toOption]; exact hinv
      | ok c1 =>
          simp only [stepOp, hres, Except.toOption, Option.getD_some]
          cases msg with
          | Deposit =>
              rw [ft_on_transfer_deposit] at hres
              injection hres with hres
              rw [← hres]
              exact hinv
          | CreateDestinationEscrow hl mk tl =>
              obtain ⟨hdep, _, _, hco⟩ :=
                ft_on_transfer_create_ok env c c1 sender amount hl mk tl hres
              rw [hco]
              exact escrowSafetyInv_insert _ _ _ hinv hdep
  | initiateSourceEscrow env p sig pk =>
      cases hres : c.initiate_source_escrow env p sig pk with
      | error m => simp [stepOp, hres, Except.toOption]; exact hinv
      | ok c1 =>
          simp only [stepOp, hres, Except.toOption, Option.getD_some]
          obtain ⟨hdep, _, _, _, _, _, hco⟩ :=
            initiate_source_escrow_ok env c c1 p sig pk hres
          rw [hco]
          exact escrowSafetyInv_insert _ _ _ hinv hdep
  | withdrawOp env secret =>
      cases hres : c.withdraw env secret with
      | error m => simp [stepOp, hres, Except.toOption]; exact hinv
      | ok out =>
          simp only [stepOp, hres, Except.toOption, Option.map_some,
            Option.map_some', Option.getD_some]
          obtain ⟨e, he, _, hstate, _⟩ := withdraw_ok env c secret out hres
          rw [hstate]
          exact escrowSafetyInv_insert _ _ _ hinv (hinv _ e he)
  | cancelOp env hl =>
      cases hres : c.cancel env hl with
      | error m => simp [stepOp, hres, Except.toOption]; exact hinv
      | ok out =>
          simp only [stepOp, hres, Except.toOption, Option.map_some,
            Option.map_some', Option.getD_some]
          obtain ⟨e, he, _, hstate, _⟩ := cancel_ok env c hl out hres
          rw [hstate]
          exact escrowSafetyInv_insert _ _ _ hinv (hinv _ e he)
  | withdrawDeposit env token amount =>
      cases hres : c.withdraw_deposit env token amount with
      | error m => simp [stepOp, hres, Except.toOption]; exact hinv
      | ok pr =>
          obtain ⟨c1, tr⟩ := pr
          simp only [stepOp, hres, Except.toOption, Option.map_some,
            Option.map_some', Option.getD_some]
          obtain ⟨_, _, ⟨d1, _, hc1⟩, _⟩ :=
            withdraw_deposit_ok env c c1 token amount tr hres
          rw [hc1]
          exact hinv
  | onEscrowSettled r0 r1 hl maker taker issrc iscan =>
      cases hres : c.on_escrow_settled r0 r1 hl maker taker issrc iscan with
      | error m => simp [stepOp, hres, Except.toOption]; exact hinv
      | ok c1 =>
          simp only [stepOp, hres, Except.toOption, Option.getD_some]
          obtain ⟨e, he, hcases⟩ :=
            on_escrow_settled_ok c c1 r0 r1 hl maker taker issrc iscan hres
          rcases hcases with ⟨_, hco⟩ | ⟨_, _, hco⟩ |
            ⟨_, _, _, d1, hd1, hco⟩ | ⟨_, _, _, d1, d2, hd1, hd2, hco⟩
          · rw [hco]
            exact escrowSafetyInv_insert _ _ _ hinv (hinv _ e he)
          · rw [hco]; exact hinv
          · rw [hco]; exact hinv
          · rw [hco]; exact hinv
  | onDepositWithdrawn ok account token amount =>
      cases ok with
      | true => exact hinv
      | false => exact hinv

/-- Every reachable state satisfies the safety-deposit invariant. -/
theorem reachable_escrowSafetyInv (c : Contract) (h : Reachable c) :
    EscrowSafetyInv c.escrows := by
  induction h with
  | init owner =>
      intro hk e he
      simp [Contract.new, alGet] at he
  | step h op ih =>
      exact stepOp_escrowSafetyInv _ op ih

/-! ## Concrete fixtures used by witnesses and counterexamples -/

/-- A delay configuration satisfying every ordering rule. -/
def dGood : TimelockDelays := ⟨0, 300, 600, 900, 0, 120, 240⟩

/-- A host environment for a resolver-called claim at creation time. -/
def envClaim : HostEnv :=
  ⟨"resolver", "resolver", 1, 0, fun _ => [1, 2, 3], fun _ _ _ => true⟩

/-- A live source-side escrow keyed by `[1, 2, 3]`. -/
def eSrc : Escrow :=
  ⟨[1, 2, 3], "maker", "resolver", .Ft "token", 100, ⟨0, dGood⟩, 5, false, true⟩

/-- A contract state holding `eSrc` and a maker ledger of 100 total, 100
locked. -/
def cClaim : Contract :=
  ⟨"owner", [([1, 2, 3], eSrc)],
    ⟨[("maker", [("token", 100)])], [("maker", [("token", 100)])]⟩, [], []⟩

/-- The outcome of a successful `withdraw` of `eSrc` by the resolver. -/
def wOut : ClaimOutcome :=
  ⟨{ cClaim with escrows := alInsert cClaim.escrows [1, 2, 3] { eSrc with claimed := true } },
    some ⟨"token", "resolver", 100⟩, ⟨"resolver", 5⟩,
    ⟨[1, 2, 3], "maker", "resolver", true, false⟩⟩

/-! ## Claim C6: validation of the timelock delays -/

/-- C6: `TimelockDelays.validate` succeeds exactly when
`src_withdrawal ≤ src_public_withdrawal < src_cancellation ≤
src_public_cancellation`, `dst_withdrawal ≤ dst_public_withdrawal <
dst_cancellation` and `dst_cancellation ≤ src_cancellation` all hold; when
any of them fails it returns an invalid-timelocks error; and it is
deterministic: two runs on equal delays give the same outcome. -/
theorem C6_validate_iff (d : TimelockDelays) :
    (d.validate = .ok () ↔
      (d.src_withdrawal_delay ≤ d.src_public_withdrawal_delay ∧
       d.src_public_withdrawal_delay < d.src_cancellation_delay ∧
       d.src_cancellation_delay ≤ d.src_public_cancellation_delay ∧
       d.dst_withdrawal_delay ≤ d.dst_public_withdrawal_delay ∧
       d.dst_public_withdrawal_delay < d.dst_cancellation_delay ∧
       d.dst_cancellation_delay ≤ d.src_cancellation_delay)) ∧
    (¬ (d.src_withdrawal_delay ≤ d.src_public_withdrawal_delay ∧
       d.src_public_withdrawal_delay < d.src_cancellation_delay ∧
       d.src_cancellation_delay ≤ d.src_public_cancellation_delay ∧
       d.dst_withdrawal_delay ≤ d.dst_public_withdrawal_delay ∧
       d.dst_public_withdrawal_delay < d.dst_cancellation_delay ∧
       d.dst_cancellation_delay ≤ d.src_cancellation_delay) →
      ∃ msg, d.validate = .error msg) ∧
    (∀ d1 : TimelockDelays, d = d1 → d.validate = d1.validate) := by
  have hiff : d.validate = .ok () ↔
      (d.src_withdrawal_delay ≤ d.src_public_withdrawal_delay ∧
       d.src_public_withdrawal_delay < d.src_cancellation_delay ∧
       d.src_cancellation_delay ≤ d.src_public_cancellation_delay ∧
       d.dst_withdrawal_delay ≤ d.dst_public_withdrawal_delay ∧
       d.dst_public_withdrawal_delay < d.dst_cancellation_delay ∧
       d.dst_cancellation_delay ≤ d.src_cancellation_delay) := by
    unfold TimelockDelays.validate
    simp only [exceptBind_ok, hostRequire_eq_ok, hostRequire_ok_iff,
      exists_const, decide_eq_true_eq]
  refine ⟨hiff, ?_, ?_⟩
  · intro hneg
    cases hval : d.validate with
    | ok u =>
        cases u
        exact absurd (hiff.mp hval) hneg
    | error msg => exact ⟨msg, rfl⟩
  · intro d1 h
    rw [h]

/-- Closed instance of C6 at a concrete delay configuration. -/
theorem C6_validate_iff_witness :
    dGood.validate = .ok () ∧ dGood.validate = dGood.validate :=
  ⟨(C6_validate_iff dGood).1.mpr (by decide),
    (C6_validate_iff dGood).2.2 dGood rfl⟩

/-! ## Claim C7: recipients of a successful claim -/

/-- C7: every successful `withdraw` dispatches the main token transfer to
the escrow's taker when `is_source` and to its maker otherwise, and
dispatches the safety-deposit native transfer to the caller, whoever the
caller is. -/
theorem C7_withdraw_recipients (env : HostEnv) (c : Contract)
    (secret : List Nat) (out : ClaimOutcome)
    (h : c.withdraw env secret = .ok out) :
    ∃ e, alGet c.escrows (env.sha256 secret) = some e ∧
      out.main = some ⟨e.asset.ft_token_id,
        if e.is_source then e.taker else e.maker, e.amount⟩ ∧
      out.safety = ⟨env.predecessor, e.safety_deposit⟩ := by
  obtain ⟨e, he, _, _, hmain, hsafety, _⟩ := withdraw_ok env c secret out h
  exact ⟨e, he, hmain, hsafety⟩

/-- Closed instance of C7: the resolver claims `eSrc`; the tokens go to
the taker and the safety deposit to the caller. -/
theorem C7_withdraw_recipients_witness :
    ∃ e, alGet cClaim.escrows (envClaim.sha256 [9]) = some e ∧
      wOut.main = some ⟨e.asset.ft_token_id,
        if e.is_source then e.taker else e.maker, e.amount⟩ ∧
      wOut.safety = ⟨envClaim.predecessor, e.safety_deposit⟩ :=
  C7_withdraw_recipients envClaim cClaim [9] wOut rfl

/-! ## Claim C9: only the designated resolver may fill a signed order -/

/-- C9: when the caller is not `params.taker_id`, `initiate_source_escrow`
fails with "Caller is not the designated resolver" even though the safety
deposit is attached and the public key is registered — whatever the
signature, nonce state or order contents — and the state is unchanged. -/
theorem C9_caller_must_be_taker (env : HostEnv) (c : Contract)
    (p : SignedOrder) (sig : List Nat) (pk : PublicKey)
    (hne : env.predecessor ≠ p.taker_id)
    (hdep : 0 < env.attached_deposit)
    (hkey : ((alGet c.registered_keys p.maker_id).getD []).contains pk = true) :
    c.initiate_source_escrow env p sig pk =
      .error "Caller is not the designated resolver" ∧
    stepOp c (.initiateSourceEscrow env p sig pk) = c := by
  have h1 : c.initiate_source_escrow env p sig pk =
      .error "Caller is not the designated resolver" := by
    have hkey2 : pk ∈ (alGet c.registered_keys p.maker_id).getD [] := by
      simpa using hkey
    unfold Contract.initiate_source_escrow verify_maker_signature
    simp [hostRequire, hdep, hkey2, hne, Bind.bind, Except.bind]
  refine ⟨h1, ?_⟩
  simp [stepOp, h1, Except.toOption]

/-- Closed instance of C9: a third party tries to fill a leaked signed
order and is rejected. -/
theorem C9_caller_must_be_taker_witness :
    Contract.initiate_source_escrow
      ⟨"mallory", "mallory", 1, 0, fun _ => [1, 2, 3], fun _ _ _ => true⟩
      ⟨"owner", [], DepositManager.new, [], [("maker", [[0, 7]])]⟩
      ⟨1, "maker", "resolver", "token", 50, [9, 9], dGood, true⟩
      [4] [0, 7] = .error "Caller is not the designated resolver" :=
    (C9_caller_must_be_taker
      ⟨"mallory", "mallory", 1, 0, fun _ => [1, 2, 3], fun _ _ _ => true⟩
      ⟨"owner", [], DepositManager.new, [], [("maker", [[0, 7]])]⟩
      ⟨1, "maker", "resolver", "token", 50, [9, 9], dGood, true⟩
      [4] [0, 7] (by decide) (by decide) (by decide)).1

/-! ## Claim C8: nonce replay is rejected before any signature check -/

/-- C8: a call whose order carries an already-used nonce always fails and
leaves the state unchanged; and whenever the earlier checks pass (caller
is the designated resolver, safety deposit attached, key registered) the
failure is exactly "Nonce already used", for every signature — that is,
the rejection happens before and independently of the signature check. -/
theorem C8_nonce_replay (env : HostEnv) (c : Contract) (p : SignedOrder)
    (sig : List Nat) (pk : PublicKey)
    (hused : c.used_nonces.contains p.nonce = true) :
    (∃ msg, c.initiate_source_escrow env p sig pk = .error msg) ∧
    stepOp c (.initiateSourceEscrow env p sig pk) = c ∧
    (env.predecessor = p.taker_id → 0 < env.attached_deposit →
      ((alGet c.registered_keys p.maker_id).getD []).contains pk = true →
      ∀ sig1 : List Nat,
        c.initiate_source_escrow env p sig1 pk = .error "Nonce already used") := by
  have herr : ∃ msg, c.initiate_source_escrow env p sig pk = .error msg := by
    cases hres : c.initiate_source_escrow env p sig pk with
    | error m => exact ⟨m, rfl⟩
    | ok c1 =>
        obtain ⟨_, _, _, hnonce, _⟩ := initiate_source_escrow_ok env c c1 p sig pk hres
        rw [hused] at hnonce
        exact absurd hnonce (by simp)
  obtain ⟨m, hm⟩ := herr
  refine ⟨⟨m, hm⟩, ?_, ?_⟩
  · simp [stepOp, hm, Except.toOption]
  · intro htaker hdep hkey sig1
    have hkey2 : pk ∈ (alGet c.registered_keys p.maker_id).getD [] := by
      simpa using hkey
    have hused2 : p.nonce ∈ c.used_nonces := by
      simpa using hused
    unfold Contract.initiate_source_escrow verify_maker_signature
    simp [hostRequire, hdep, hkey2, htaker, hused2, Bind.bind, Except.bind]

/-- Closed instance of C8: re-submitting an order with nonce 1 after that
nonce has been consumed fails with the nonce-reuse error. -/
theorem C8_nonce_replay_witness :
    Contract.initiate_source_escrow
      ⟨"resolver", "resolver", 1, 0, fun _ => [1, 2, 3], fun _ _ _ => true⟩
      ⟨"owner", [], DepositManager.new, [1], [("maker", [[0, 7]])]⟩
      ⟨1, "maker", "resolver", "token", 50, [9, 9], dGood, true⟩
      [4] [0, 7] = .error "Nonce already used" :=
    (C8_nonce_replay
      ⟨"resolver", "resolver", 1, 0, fun _ => [1, 2, 3], fun _ _ _ => true⟩
      ⟨"owner", [], DepositManager.new, [1], [("maker", [[0, 7]])]⟩
      ⟨1, "maker", "resolver", "token", 50, [9, 9], dGood, true⟩
      [4] [0, 7] (by decide)).2.2 rfl (by decide) (by decide) [4]

/-! ## Claim C3: the ledger invariant and `u128` overflow -/

/-- The maker's key-registration environment for the C3 sequence. -/
def envRegC3 : HostEnv :=
  ⟨"maker", "maker", 0, 0, fun _ => [1, 2, 3], fun _ _ _ => true⟩

/-- The token contract's environment for the two C3 deposits. -/
def envTokC3 : HostEnv :=
  ⟨"token", "token", 0, 0, fun _ => [1, 2, 3], fun _ _ _ => true⟩

/-- The resolver's environment for the C3 lock call. -/
def envResC3 : HostEnv :=
  ⟨"resolver", "resolver", 1, 0, fun _ => [1, 2, 3], fun _ _ _ => true⟩

/-- A signed order locking the maker's entire `u128`-maximum deposit. -/
def pBigC3 : SignedOrder :=
  ⟨1, "maker", "resolver", "token", 340282366920938463463374607431768211455,
    [9, 9], dGood, true⟩

/-- The state after four public calls: the maker registers a key, a token
contract credits the maker with the `u128` maximum, the resolver fills the
maker's signed order locking that whole amount, and the token contract
credits one more token — wrapping the total balance to zero. -/
def cOverflowC3 : Contract :=
  stepOp (stepOp (stepOp (stepOp (Contract.new "owner")
    (.registerKeys envRegC3 [List.replicate 33 0]))
    (.ftOnTransfer envTokC3 "maker" 340282366920938463463374607431768211455 .Deposit))
    (.initiateSourceEscrow envResC3 pBigC3 (List.replicate 64 0) (List.replicate 33 0)))
    (.ftOnTransfer envTokC3 "maker" 1 .Deposit)

set_option maxRecDepth 16384 in
/-- C3 counterexample: under the wrapping `u128` arithmetic of the binary
the claimed invariant fails on a reachable state.  A malicious token
contract credits the maker with the `u128` maximum, the maker's signed
order locks all of it, and one further one-token deposit wraps the total
to zero while the locked balance stays at the maximum, so after this
public-operation sequence the locked balance exceeds the total balance. -/
theorem C3_counterexample_total_wraps :
    Reachable cOverflowC3 ∧
    cOverflowC3.deposits.get_total_balance "maker" "token" <
      cOverflowC3.deposits.get_locked_balance "maker" "token" :=
  ⟨Reachable.step (Reachable.step (Reachable.step (Reachable.step
      (Reachable.init "owner")
      (.registerKeys envRegC3 [List.replicate 33 0]))
      (.ftOnTransfer envTokC3 "maker" 340282366920938463463374607431768211455 .Deposit))
      (.initiateSourceEscrow envResC3 pBigC3 (List.replicate 64 0) (List.replicate 33 0)))
      (.ftOnTransfer envTokC3 "maker" 1 .Deposit),
    by decide⟩

/-- C3 amended: in every state reachable from the initial contract state
by any sequence of the public operations and settlement callbacks in
which every total-balance credit stays below 2^128 — i.e. no deposit
credit overflows `u128` — the locked balance of every (account, token)
pair is at most its total balance.  The proviso is necessary: without it
the counterexample above wraps a total below the locked balance. -/
theorem C3_locked_le_total_no_overflow (c : Contract) (h : ReachableSafe c)
    (a : AccountId) (t : TokenId) :
    c.deposits.get_locked_balance a t ≤ c.deposits.get_total_balance a t :=
  (reachableSafe_ledgerOk c h a t).1

/-- Closed instance of the amended C3 at the overflow-free reachable state
obtained by one in-range deposit. -/
theorem C3_locked_le_total_no_overflow_witness :
    (stepOp (Contract.new "owner")
        (.ftOnTransfer envClaim "alice" 100 .Deposit)).deposits.get_locked_balance
        "alice" "resolver" ≤
    (stepOp (Contract.new "owner")
        (.ftOnTransfer envClaim "alice" 100 .Deposit)).deposits.get_total_balance
        "alice" "resolver" :=
  C3_locked_le_total_no_overflow _
    (ReachableSafe.step (ReachableSafe.init "owner")
      (.ftOnTransfer envClaim "alice" 100 .Deposit)
      (by unfold OpNoOverflow; decide)) "alice" "resolver"

/-! ## Claim C10: unchecked `u64` overflow in the phase boundaries -/

/-- A delay of 2^55 + 1 seconds: large enough that `delay * NANOS_IN_SEC`
exceeds 2^64, and chosen so that the wrapped product is exactly 10^9. -/
def dHuge : TimelockDelays :=
  ⟨0, 0, 36028797018963969, 36028797018963969, 0, 0, 36028797018963969⟩

/-- C10: the phase boundaries are computed as
`created_at + delay * 1_000_000_000` in wrapping `u64` arithmetic and
`validate` puts no upper bound on the delays, so a configuration of about
2^64 / 10^9 seconds per delay is accepted by `validate`, its boundary
multiplication overflows 2^64, the boundary wraps to a time earlier than
`created_at`, and `assert_dst_cancellation_window` passes at the very
timestamp the escrow was created. -/
theorem C10_phase_boundary_overflow :
    dHuge.validate = .ok () ∧
    U64MOD ≤ dHuge.dst_cancellation_delay * NANOS_IN_SEC ∧
    phaseBoundary 18446744073709551615 dHuge.dst_cancellation_delay <
      18446744073709551615 ∧
    Timelocks.assert_dst_cancellation_window ⟨18446744073709551615, dHuge⟩
      18446744073709551615 = .ok () := by
  refine ⟨rfl, by decide, by decide, rfl⟩

/-! ## Claim C1: missing hashlock-collision check in `initiate_source_escrow` -/

/-- An escrow already sitting in the store under the hashlock `[9, 9]`. -/
def eOld : Escrow :=
  ⟨[9, 9], "oldmaker", "oldtaker", .Ft "oldtoken", 7, ⟨0, dGood⟩, 3, false, false⟩

/-- A signed order whose hashlock collides with `eOld`. -/
def pColl : SignedOrder := ⟨1, "maker", "resolver", "token", 50, [9, 9], dGood, true⟩

/-- A host environment for the resolver's colliding call. -/
def envColl : HostEnv :=
  ⟨"resolver", "resolver", 1, 0, fun _ => [1, 2, 3], fun _ _ _ => true⟩

/-- A contract state holding `eOld`, the maker's deposit and the maker's
registered key. -/
def cColl : Contract :=
  ⟨"owner", [([9, 9], eOld)], ⟨[("maker", [("token", 100)])], []⟩, [],
    [("maker", [List.replicate 33 0])]⟩

/-- The escrow record written by the colliding call. -/
def eNew : Escrow :=
  ⟨[9, 9], "maker", "resolver", .Ft "token", 50, ⟨0, dGood⟩, 1, false, true⟩

/-- C1 (code bug): `initiate_source_escrow` performs no hashlock-collision
check.  Called with a hashlock that already keys a stored escrow — every
other check passing — it succeeds and silently replaces the stored record
instead of failing with a collision error and leaving the store unchanged
(the sibling creation path in `ft_on_transfer` does perform this check,
and the spec requires it on this path too). -/
theorem C1_initiate_overwrites_existing_escrow :
    ∃ c1, Contract.initiate_source_escrow envColl cColl pColl
        (List.replicate 64 0) (List.replicate 33 0) = .ok c1 ∧
      alGet cColl.escrows [9, 9] = some eOld ∧
      alGet c1.escrows [9, 9] = some eNew ∧
      eNew ≠ eOld := by
  refine ⟨_, rfl, rfl, rfl, by decide⟩

/-! ## Claim C2: the settlement callback ignores the safety-deposit result -/

/-- A claimed source-side escrow awaiting settlement under hashlock `[8, 8]`. -/
def eClaimed : Escrow :=
  ⟨[8, 8], "maker", "resolver", .Ft "token", 50, ⟨0, dGood⟩, 5, true, true⟩

/-- A contract state holding `eClaimed`, with the maker's 100 total and 50
locked. -/
def cSettle : Contract :=
  ⟨"owner", [([8, 8], eClaimed)],
    ⟨[("maker", [("token", 100)])], [("maker", [("token", 50)])]⟩, [], []⟩

/-- C2 counterexample: settle with the main transfer successful but the
safety-deposit transfer failed (`result1 = false`).  The claim says such a
call must take the failure path — revert `claimed` and change no ledger —
but the code takes the success branch: the ledger is debited and the
stored record keeps `claimed = true`. -/
theorem C2_counterexample_ignores_safety_result :
    ∃ c1, Contract.on_escrow_settled cSettle true false [8, 8] "maker"
        "resolver" true false = .ok c1 ∧
      c1.deposits ≠ cSettle.deposits ∧
      alGet c1.escrows [8, 8] = some eClaimed ∧
      eClaimed.claimed = true := by
  refine ⟨_, rfl, by decide, rfl, rfl⟩

/-- C2 amended: `on_escrow_settled` observes `promise_result(0)` — the
main transfer — only.  Its outcome is identical for any value of the
safety-deposit result; it takes the success branch exactly when the main
transfer succeeded, and the success branch never touches the escrow store
(so `claimed` stays true); when the main transfer failed it reverts the
escrow's `claimed` flag to false, persists the record, and makes no
ledger change, so a later claim or cancel on that escrow can succeed. -/
theorem C2_settlement_depends_on_main_result_only (c : Contract)
    (r1 r1' : Bool) (hk : EscrowId) (maker taker : AccountId)
    (issrc iscan : Bool) :
    (∀ r0, c.on_escrow_settled r0 r1 hk maker taker issrc iscan =
      c.on_escrow_settled r0 r1' hk maker taker issrc iscan) ∧
    (∀ e, alGet c.escrows hk = some e →
      c.on_escrow_settled false r1 hk maker taker issrc iscan =
        .ok { c with escrows := alInsert c.escrows hk { e with claimed := false } } ∧
      (c.on_escrow_settled false r1 hk maker taker issrc iscan).toOption.all
        (fun c1 => c1.deposits = c.deposits) = true) ∧
    (∀ c1, c.on_escrow_settled true r1 hk maker taker issrc iscan = .ok c1 →
      c1.escrows = c.escrows) := by
  refine ⟨fun r0 => rfl, ?_, ?_⟩
  · intro e he
    have h1 : c.on_escrow_settled false r1 hk maker taker issrc iscan =
        .ok { c with escrows := alInsert c.escrows hk { e with claimed := false } } := by
      unfold Contract.on_escrow_settled
      simp [he]
    refine ⟨h1, ?_⟩
    rw [h1]
    simp [Except.toOption]
  · intro c1 hok
    obtain ⟨e, he, hcases⟩ :=
      on_escrow_settled_ok c c1 true r1 hk maker taker issrc iscan hok
    rcases hcases with ⟨hfalse, _⟩ | ⟨_, _, hco⟩ |
      ⟨_, _, _, d1, hd1, hco⟩ | ⟨_, _, _, d1, d2, hd1, hd2, hco⟩
    · exact absurd hfalse (by simp)
    · rw [hco]
    · rw [hco]
    · rw [hco]

/-- Closed instance of the amended C2: a failed main transfer reverts the
claimed flag of `eClaimed` and leaves the ledger unchanged. -/
theorem C2_settlement_witness :
    Contract.on_escrow_settled cSettle false true [8, 8] "maker" "resolver"
        true false =
      .ok { cSettle with
        escrows := alInsert cSettle.escrows [8, 8] { eClaimed with claimed := false } } :=
  ((C2_settlement_depends_on_main_result_only cSettle true true [8, 8]
    "maker" "resolver" true false).2.1 eClaimed rfl).1

/-! ## Claim C4: the signed message bytes -/

/-- A concrete signed order for the encoding comparison. -/
def oC4 : SignedOrder :=
  ⟨1, "maker", "resolver", "token", 2, List.replicate 32 7, dGood, true⟩

set_option maxRecDepth 8192 in
/-- C4 counterexample: the byte string that is hashed and signature-checked
is not the spec's six-field encoding — the borsh serialization also
contains `taker_id` (between `maker_id` and `asset_id`) and the
`is_source` byte, here 13 extra bytes. -/
theorem C4_counterexample_extra_fields :
    SignedOrder.to_message_bytes oC4 ≠ specOrderEncoding oC4 ∧
    (SignedOrder.to_message_bytes oC4).length =
      (specOrderEncoding oC4).length + 13 := by
  constructor
  · decide
  · decide

/-- The value denoted by a little-endian base-256 digit list. -/
def fromLE (bs : List Nat) : Nat :=
  bs.foldr (fun b acc => b + 256 * acc) 0

theorem fromLE_leBytes (w n : Nat) (h : n < 256 ^ w) :
    fromLE (leBytes w n) = n := by
  induction w generalizing n with
  | zero =>
      simp only [pow_zero, Nat.lt_one_iff] at h
      simp [leBytes, fromLE, h]
  | succ w ih =>
      have hdiv : n / 256 < 256 ^ w := by
        rw [Nat.div_lt_iff_lt_mul (by norm_num)]
        calc n < 256 ^ (w + 1) := h
        _ = 256 ^ w * 256 := by ring
      simp only [leBytes, fromLE, List.foldr_cons]
      have : fromLE (leBytes w (n / 256)) = n / 256 := ih _ hdiv
      unfold fromLE at this
      rw [this]
      omega

theorem leBytes_append_inj (w n1 n2 : Nat) (r1 r2 : List Nat)
    (h1 : n1 < 256 ^ w) (h2 : n2 < 256 ^ w)
    (h : leBytes w n1 ++ r1 = leBytes w n2 ++ r2) : n1 = n2 ∧ r1 = r2 := by
  obtain ⟨hb, hr⟩ := List.append_inj h (by rw [leBytes_length, leBytes_length])
  refine ⟨?_, hr⟩
  rw [← fromLE_leBytes w n1 h1, ← fromLE_leBytes w n2 h2, hb]

theorem char_toNat_inj : Function.Injective Char.toNat := by
  intro a b h
  exact Char.ext (UInt32.ext h)

theorem utf8_inj (s1 s2 : String) (h : utf8 s1 = utf8 s2) : s1 = s2 := by
  unfold utf8 at h
  have hd := List.map_injective_iff.mpr char_toNat_inj h
  cases s1
  cases s2
  simp only at hd
  rw [hd]

theorem borshString_append_inj (s1 s2 : String) (r1 r2 : List Nat)
    (h1 : (utf8 s1).length < 256 ^ 4) (h2 : (utf8 s2).length < 256 ^ 4)
    (h : borshString s1 ++ r1 = borshString s2 ++ r2) : s1 = s2 ∧ r1 = r2 := by
  unfold borshString at h
  rw [List.append_assoc, List.append_assoc] at h
  obtain ⟨hlen, hrest⟩ := leBytes_append_inj 4 _ _ _ _ h1 h2 h
  obtain ⟨hstr, hr⟩ := List.append_inj hrest hlen
  exact ⟨utf8_inj _ _ hstr, hr⟩

/-- Well-formedness of the delays as `u64` field values. -/
def WFDelays (d : TimelockDelays) : Prop :=
  d.src_withdrawal_delay < 256 ^ 8 ∧
  d.src_public_withdrawal_delay < 256 ^ 8 ∧
  d.src_cancellation_delay < 256 ^ 8 ∧
  d.src_public_cancellation_delay < 256 ^ 8 ∧
  d.dst_withdrawal_delay < 256 ^ 8 ∧
  d.dst_public_withdrawal_delay < 256 ^ 8 ∧
  d.dst_cancellation_delay < 256 ^ 8

theorem encodeDelays_append_inj (d1 d2 : TimelockDelays) (r1 r2 : List Nat)
    (h1 : WFDelays d1) (h2 : WFDelays d2)
    (h : encodeDelays d1 ++ r1 = encodeDelays d2 ++ r2) : d1 = d2 ∧ r1 = r2 := by
  obtain ⟨ha1, hb1, hc1, hd1, he1, hf1, hg1⟩ := h1
  obtain ⟨ha2, hb2, hc2, hd2, he2, hf2, hg2⟩ := h2
  unfold encodeDelays at h
  simp only [List.append_assoc] at h
  obtain ⟨e1, h⟩ := leBytes_append_inj 8 _ _ _ _ ha1 ha2 h
  obtain ⟨e2, h⟩ := leBytes_append_inj 8 _ _ _ _ hb1 hb2 h
  obtain ⟨e3, h⟩ := leBytes_append_inj 8 _ _ _ _ hc1 hc2 h
  obtain ⟨e4, h⟩ := leBytes_append_inj 8 _ _ _ _ hd1 hd2 h
  obtain ⟨e5, h⟩ := leBytes_append_inj 8 _ _ _ _ he1 he2 h
  obtain ⟨e6, h⟩ := leBytes_append_inj 8 _ _ _ _ hf1 hf2 h
  obtain ⟨e7, h⟩ := leBytes_append_inj 8 _ _ _ _ hg1 hg2 h
  refine ⟨?_, h⟩
  cases d1
  cases d2
  simp only at e1 e2 e3 e4 e5 e6 e7
  simp [e1, e2, e3, e4, e5, e6, e7]

/-- Well-formedness of a `SignedOrder` as field values of their Rust
types: the `u128` fields fit 16 bytes, the utf8 account ids fit a `u32`
length prefix, the hashlock has 32 bytes and the delays fit `u64`. -/
def WFOrder (o : SignedOrder) : Prop :=
  o.nonce < 256 ^ 16 ∧ o.amount < 256 ^ 16 ∧
  (utf8 o.maker_id).length < 256 ^ 4 ∧
  (utf8 o.taker_id).length < 256 ^ 4 ∧
  (utf8 o.asset_id).length < 256 ^ 4 ∧
  o.hashlock.length = 32 ∧
  WFDelays o.timelocks

theorem to_message_bytes_inj (o1 o2 : SignedOrder)
    (h1 : WFOrder o1) (h2 : WFOrder o2)
    (h : o1.to_message_bytes = o2.to_message_bytes) : o1 = o2 := by
  obtain ⟨hn1, ha1, hm1, ht1, has1, hh1, htl1⟩ := h1
  obtain ⟨hn2, ha2, hm2, ht2, has2, hh2, htl2⟩ := h2
  unfold SignedOrder.to_message_bytes at h
  simp only [List.append_assoc] at h
  obtain ⟨hn, h⟩ := leBytes_append_inj 16 _ _ _ _ hn1 hn2 h
  obtain ⟨hmk, h⟩ := borshString_append_inj _ _ _ _ hm1 hm2 h
  obtain ⟨htk, h⟩ := borshString_append_inj _ _ _ _ ht1 ht2 h
  obtain ⟨has, h⟩ := borshString_append_inj _ _ _ _ has1 has2 h
  obtain ⟨ham, h⟩ := leBytes_append_inj 16 _ _ _ _ ha1 ha2 h
  obtain ⟨hhsh, h⟩ := List.append_inj h (by rw [hh1, hh2])
  obtain ⟨htl, h⟩ := encodeDelays_append_inj _ _ _ _ htl1 htl2 h
  have his : o1.is_source = o2.is_source := by
    cases hi1 : o1.is_source <;> cases hi2 : o2.is_source <;> simp_all
  cases o1
  cases o2
  simp only at hn hmk htk has ham hhsh htl his
  simp [hn, hmk, htk, has, ham, hhsh, htl, his]

/-- The encoding stated by the amended claim: the deterministic encoding
of exactly the eight declared fields of `SignedOrder` — nonce as u128 LE,
maker_id, taker_id and asset_id as length-prefixed utf8, amount as u128
LE, hashlock as raw bytes, the seven u64 LE delays in declaration order,
and is_source as one byte — in declaration order, with no other data. -/
def amendedOrderEncoding (o : SignedOrder) : List Nat :=
  leBytes 16 o.nonce ++
  borshString o.maker_id ++
  borshString o.taker_id ++
  borshString o.asset_id ++
  leBytes 16 o.amount ++
  o.hashlock ++
  encodeDelays o.timelocks ++
  [if o.is_source then 1 else 0]

/-- C4 amended: for every `SignedOrder`, the hashed byte string equals the
deterministic eight-field encoding above; its length is the exact sum of
the fixed field widths and the three length-prefixed strings; and the
encoding is injective on well-formed orders — it determines every field,
so it is a faithful deterministic serialization of exactly those fields. -/
theorem C4_message_bytes_amended (o : SignedOrder) :
    o.to_message_bytes = amendedOrderEncoding o ∧
    o.to_message_bytes.length =
      16 + (4 + (utf8 o.maker_id).length) + (4 + (utf8 o.taker_id).length) +
      (4 + (utf8 o.asset_id).length) + 16 + o.hashlock.length + 56 + 1 ∧
    (∀ o2 : SignedOrder, WFOrder o → WFOrder o2 →
      o.to_message_bytes = o2.to_message_bytes → o = o2) := by
  refine ⟨rfl, ?_, fun o2 h1 h2 h => to_message_bytes_inj o o2 h1 h2 h⟩
  simp only [SignedOrder.to_message_bytes, borshString, encodeDelays,
      List.length_append, List.length_cons, List.length_nil, leBytes_length]

set_option maxRecDepth 8192 in
/-- Closed instance of the amended C4 at a concrete order. -/
theorem C4_message_bytes_amended_witness :
    oC4.to_message_bytes = amendedOrderEncoding oC4 ∧ oC4 = oC4 :=
  ⟨(C4_message_bytes_amended oC4).1,
    (C4_message_bytes_amended oC4).2.2 oC4 (by unfold WFOrder WFDelays; decide) (by unfold WFOrder WFDelays; decide) rfl⟩

/-! ## Claim C5: positivity of stored escrow amounts and safety deposits -/

/-- The token custodian's host environment for a destination creation. -/
def envFt : HostEnv := ⟨"token", "resolver", 1, 0, fun _ => [], fun _ _ _ => true⟩

/-- C5 counterexample: creating a destination escrow with a zero token
amount succeeds, and the stored record has `amount = 0` — the claim's
`amount > 0` invariant and its both-paths-fail-on-zero statement do not
hold on the code. -/
theorem C5_counterexample_zero_amount :
    ∃ c1, Contract.ft_on_transfer envFt (Contract.new "owner") "resolver" 0
        (.CreateDestinationEscrow [5, 5] "maker" dGood) = .ok c1 ∧
      alGet c1.escrows [5, 5] =
        some ⟨[5, 5], "maker", "resolver", .Ft "token", 0, ⟨0, dGood⟩, 1,
          false, false⟩ := by
  refine ⟨_, rfl, rfl⟩

/-- C5 amended: every escrow record ever stored — by `ft_on_transfer`
creation or by `initiate_source_escrow` — has `safety_deposit > 0` (both
creation paths require a positive attached native deposit); positivity of
the token `amount` is not enforced. -/
theorem C5_stored_escrow_safety_positive (c : Contract) (h : Reachable c)
    (hk : EscrowId) (e : Escrow) (he : alGet c.escrows hk = some e) :
    0 < e.safety_deposit :=
  reachable_escrowSafetyInv c h hk e he

/-- The creation step used by the C5 witness. -/
def opC5 : Op :=
  .ftOnTransfer envFt "resolver" 50 (.CreateDestinationEscrow [5, 5] "maker" dGood)

/-- Closed instance of the amended C5 at a freshly created escrow. -/
theorem C5_stored_escrow_safety_positive_witness :
    0 < (⟨[5, 5], "maker", "resolver", .Ft "token", 50, ⟨0, dGood⟩, 1,
      false, false⟩ : Escrow).safety_deposit :=
  C5_stored_escrow_safety_positive (stepOp (Contract.new "owner") opC5)
    (Reachable.step (Reachable.init "owner") opC5) [5, 5] _ rfl
